import Mathlib

/-!
Shallow embedding of the DokuWiki-to-Markdown migrator
(`src/dokuwiki_to_japlin.py`) and proofs about it.

Modelling conventions:
* Python strings are lists of Unicode characters (`Str`);
* Python `bytes` are lists of byte values (`PyBytes`);
* Python dicts are association lists where insertion prepends, so the
  most recent binding for a key shadows older ones;
* the output filesystem is an association list from output paths to
  file contents; file contents are byte lists, and `sha256_file` is
  modelled as the identity on contents (SHA-256 treated as injective);
* `os.getcwd()` is modelled as an explicit list of path components
  passed to the functions that call `posixpath.relpath`;
* functions that can raise (`posixpath.relpath`, the collision loop of
  `unique_path_if_needed`, reading a source page) return `Except`.
-/

/-- Python strings, modelled as lists of Unicode characters. -/
abbrev Str := List Char

/-- Python bytes objects, modelled as lists of byte values. -/
abbrev PyBytes := List Nat

/-- Characters removed by Python `str.strip()` (the ASCII whitespace set,
which is all the migrator's inputs use). -/
def isPySpace (c : Char) : Bool :=
  c = ' ' || c = '\t' || c = '\n' || c = '\r' || c = '\x0b' || c = '\x0c'

/-- Python `s.strip()`: drop leading and trailing whitespace. -/
def pyStrip (s : Str) : Str :=
  List.reverse (List.dropWhile isPySpace (List.reverse (List.dropWhile isPySpace s)))

/-- Everything before the first occurrence of `c`, i.e. `s.split(c, 1)[0]`. -/
def takeUntil (c : Char) : Str → Str
  | [] => []
  | x :: xs => if x = c then [] else x :: takeUntil c xs

/-- Everything after the first occurrence of `c`, i.e. `s.split(c, 1)[1]`
when `c` occurs in `s`. -/
def dropPast (c : Char) : Str → Str
  | [] => []
  | x :: xs => if x = c then xs else dropPast c xs

/-- Python `s.split(c)`: split on every occurrence of `c`, keeping empty
pieces (so `"".split("/") == [""]` and `"a//b".split("/") == ["a","","b"]`). -/
def pySplitAll (c : Char) : Str → List Str
  | [] => [[]]
  | x :: xs =>
    if x = c then [] :: pySplitAll c xs
    else
      match pySplitAll c xs with
      | [] => [[x]]
      | h :: t => (x :: h) :: t

/-- Source `to_posix`: `p.replace("\\", "/")` (a single-character replace). -/
def to_posix (s : Str) : Str :=
  s.map (fun c => if c = '\\' then '/' else c)

/-- Python `s.replace("/", ":")`. -/
def slashToColon (s : Str) : Str :=
  s.map (fun c => if c = '/' then ':' else c)

/-- Python `s.replace(":", "/")`. -/
def colonToSlash (s : Str) : Str :=
  s.map (fun c => if c = ':' then '/' else c)

/-- Source `strip_query`: remove any query string (`?...`) after a
filename or path, preserving an anchor (`#...`) that follows it. -/
def strip_query (s : Str) : Str :=
  if '?' ∈ s then
    if '#' ∈ s then
      takeUntil '?' (takeUntil '#' s) ++ '#' :: dropPast '#' s
    else takeUntil '?' s
  else s

/-- Hexadecimal digit value, as accepted by urllib's `_hextobyte` table
(both lower and upper case). -/
def hexVal (c : Char) : Option Nat :=
  if '0' ≤ c ∧ c ≤ '9' then some (c.toNat - '0'.toNat)
  else if 'a' ≤ c ∧ c ≤ 'f' then some (c.toNat - 'a'.toNat + 10)
  else if 'A' ≤ c ∧ c ≤ 'F' then some (c.toNat - 'A'.toNat + 10)
  else none

/-- Unicode replacement character U+FFFD. -/
def replChar : Char := Char.ofNat 0xFFFD

/-- UTF-8 continuation byte test. -/
def isCont (b : Nat) : Bool := 0x80 ≤ b && b < 0xC0

/-- Lower bound (inclusive) of the valid first continuation byte for a
UTF-8 lead byte. -/
def cont1Lo (lead : Nat) : Nat :=
  if lead = 0xE0 then 0xA0 else if lead = 0xF0 then 0x90 else 0x80

/-- Upper bound (exclusive) of the valid first continuation byte for a
UTF-8 lead byte. -/
def cont1Hi (lead : Nat) : Nat :=
  if lead = 0xED then 0xA0 else if lead = 0xF4 then 0x90 else 0xC0

/-- UTF-8 decoding with U+FFFD substitution of maximal invalid subparts,
modelling CPython's `bytes.decode("utf-8", errors="replace")`. -/
def utf8DecodeReplace : PyBytes → Str
  | [] => []
  | b :: bs =>
    if b < 0x80 then Char.ofNat b :: utf8DecodeReplace bs
    else if b < 0xC2 then replChar :: utf8DecodeReplace bs
    else if b < 0xE0 then
      match bs with
      | [] => [replChar]
      | b1 :: bs1 =>
        if isCont b1 then
          Char.ofNat ((b - 0xC0) * 64 + (b1 - 0x80)) :: utf8DecodeReplace bs1
        else replChar :: utf8DecodeReplace (b1 :: bs1)
    else if b < 0xF0 then
      match bs with
      | [] => [replChar]
      | b1 :: bs1 =>
        if cont1Lo b ≤ b1 && b1 < cont1Hi b then
          match bs1 with
          | [] => [replChar]
          | b2 :: bs2 =>
            if isCont b2 then
              Char.ofNat (((b - 0xE0) * 64 + (b1 - 0x80)) * 64 + (b2 - 0x80)) ::
                utf8DecodeReplace bs2
            else replChar :: utf8DecodeReplace (b2 :: bs2)
        else replChar :: utf8DecodeReplace (b1 :: bs1)
    else if b < 0xF5 then
      match bs with
      | [] => [replChar]
      | b1 :: bs1 =>
        if cont1Lo b ≤ b1 && b1 < cont1Hi b then
          match bs1 with
          | [] => [replChar]
          | b2 :: bs2 =>
            if isCont b2 then
              match bs2 with
              | [] => [replChar]
              | b3 :: bs3 =>
                if isCont b3 then
                  Char.ofNat ((((b - 0xF0) * 64 + (b1 - 0x80)) * 64 + (b2 - 0x80)) * 64
                    + (b3 - 0x80)) :: utf8DecodeReplace bs3
                else replChar :: utf8DecodeReplace (b3 :: bs3)
            else replChar :: utf8DecodeReplace (b2 :: bs2)
        else replChar :: utf8DecodeReplace (b1 :: bs1)
    else replChar :: utf8DecodeReplace bs

/-- ASCII test: urllib's `unquote` only percent-decodes maximal ASCII runs. -/
def isAsciiC (c : Char) : Bool := c.toNat ≤ 0x7F

/-- Maximal runs of ASCII / non-ASCII characters of a string, in order,
each tagged with whether it is an ASCII run. -/
def asciiRuns : Str → List (Bool × Str)
  | [] => []
  | c :: cs =>
    match asciiRuns cs with
    | [] => [(isAsciiC c, [c])]
    | (b, run) :: rest =>
      if b = isAsciiC c then (b, c :: run) :: rest
      else (isAsciiC c, [c]) :: (b, run) :: rest

/-- One chunk of `urllib.parse.unquote_to_bytes` after splitting on `%`:
decode the first two characters as a hex byte if possible, otherwise keep
the `%` literally. -/
def unquoteChunk (chunk : Str) : PyBytes :=
  match chunk with
  | h1 :: h2 :: rest =>
    match hexVal h1, hexVal h2 with
    | some a, some b => (a * 16 + b) :: rest.map Char.toNat
    | _, _ => '%'.toNat :: chunk.map Char.toNat
  | _ => '%'.toNat :: chunk.map Char.toNat

/-- urllib.parse.unquote_to_bytes on one ASCII run of the input. -/
def unquoteToBytes (run : Str) : PyBytes :=
  match pySplitAll '%' run with
  | [] => []
  | first :: rest => first.map Char.toNat ++ (rest.map unquoteChunk).flatten

/-- urllib.parse.unquote with the defaults `encoding="utf-8"`,
`errors="replace"`: ASCII runs are percent-decoded to bytes and UTF-8
decoded with replacement, non-ASCII runs pass through; a string without
`%` is returned unchanged. -/
def pyUnquote (s : Str) : Str :=
  if '%' ∈ s then
    ((asciiRuns s).map (fun br =>
      if br.1 then utf8DecodeReplace (unquoteToBytes br.2) else br.2)).flatten
  else s

/-- Source `decode_path_segments`: convert to posix separators, split on
`/`, drop empty segments, percent-decode each remaining segment
independently, re-join with `/`. -/
def decode_path_segments (s : Str) : Str :=
  List.intercalate ['/']
    (((pySplitAll '/' (to_posix s)).filter (fun part => part ≠ [])).map pyUnquote)

/-- Python `s.lower()` (ASCII fragment, which is all the extension and
scheme comparisons in the source use). -/
def pyLower (s : Str) : Str := s.map Char.toLower

/-- The `re.match(r"^(https?|ftp)://", t, re.IGNORECASE)` test used for
external URLs. -/
def isExternalUrl (t : Str) : Bool :=
  ("http://".toList).isPrefixOf (pyLower t) ||
  ("https://".toList).isPrefixOf (pyLower t) ||
  ("ftp://".toList).isPrefixOf (pyLower t)

/-- Last path component, `posixpath.basename` / `PurePath.name` (POSIX
separator model). -/
def pyBasename (s : Str) : Str := (takeUntil '/' s.reverse).reverse

/-- Parent directory of a path; `Path(".")` (the parent of a bare name) is
modelled as the empty string. -/
def pyParent (s : Str) : Str :=
  if '/' ∈ s then (dropPast '/' s.reverse).reverse else []

/-- Join a parent directory and a file name, `parent / name` in pathlib. -/
def pyParentJoin (parent name : Str) : Str :=
  if parent = [] then name else parent ++ '/' :: name

/-- pathlib `PurePath.suffix` of a file name: the part from the last dot,
provided that dot is neither the first nor the last character of the name. -/
def pySuffix (name : Str) : Str :=
  if '.' ∈ name ∧ takeUntil '.' name.reverse ≠ [] ∧ dropPast '.' name.reverse ≠ [] then
    '.' :: (takeUntil '.' name.reverse).reverse
  else []

/-- pathlib `PurePath.stem`: the file name with its suffix removed. -/
def pyStem (name : Str) : Str :=
  name.take (name.length - (pySuffix name).length)

/-- pathlib `with_suffix("")` applied to a relative path: drop the final
component's suffix. -/
def pyDropSuffix (p : Str) : Str :=
  pyParentJoin (pyParent p) (pyStem (pyBasename p))

/-- Python `s.rsplit(":", 1)[0]`: everything before the last colon. -/
def beforeLastColon (s : Str) : Str := (dropPast ':' s.reverse).reverse

/-- Python `s.split(":")[-1]`: everything after the last colon. -/
def afterLastColon (s : Str) : Str := (takeUntil ':' s.reverse).reverse

/-- Collapse each maximal run of whitespace to a single space, modelling
`re.sub(r"\s+", " ", s)` (ASCII whitespace fragment); the flag records
whether the previous character was whitespace. -/
def collapseWsAux : Bool → Str → Str
  | _, [] => []
  | prev, c :: cs =>
    if isPySpace c then
      if prev then collapseWsAux true cs else ' ' :: collapseWsAux true cs
    else c :: collapseWsAux false cs

/-- Whitespace-run collapsing, `re.sub(r"\s+", " ", s)`. -/
def collapseWs (s : Str) : Str := collapseWsAux false s

/-- posixpath.join of two paths. -/
def pyJoin (a b : Str) : Str :=
  if b.head? = some '/' then b
  else if a = [] ∨ a.getLast? = some '/' then a ++ b
  else a ++ '/' :: b

/-- Does the string denote an absolute POSIX path? -/
def isAbsStr (s : Str) : Bool := s.head? = some '/'

/-- One step of posixpath.normpath's component loop: skip empty and `.`
components, append ordinary components, and on `..` either keep it (for a
relative path with nothing to pop, or after another kept `..`) or pop the
last component (dropping `..` entirely at the root of an absolute path). -/
def normStep (absolute : Bool) (acc : List Str) (comp : Str) : List Str :=
  if comp = [] ∨ comp = ".".toList then acc
  else if comp ≠ "..".toList ∨ (¬absolute ∧ acc = []) ∨ acc.getLast? = some ("..".toList) then
    acc ++ [comp]
  else if acc ≠ [] then acc.dropLast
  else acc

/-- posixpath.normpath's component normalization. -/
def normpathComps (absolute : Bool) (comps : List Str) : List Str :=
  comps.foldl (normStep absolute) []

/-- posixpath.normpath on a string (including the special treatment of a
leading `//`). -/
def pyNormpath (s : Str) : Str :=
  if s = [] then ".".toList
  else
    let slashes : Nat :=
      if isAbsStr s then
        if ("//".toList).isPrefixOf s && !(("///".toList).isPrefixOf s) then 2 else 1
      else 0
    let joined := List.replicate slashes '/' ++
      List.intercalate ['/'] (normpathComps (isAbsStr s) (pySplitAll '/' s))
    if joined = [] then ".".toList else joined

/-- Components of `posixpath.abspath p` given the current working
directory `cwd` (modelled as its list of path components). -/
def absPathComps (cwd : List Str) (p : Str) : List Str :=
  if isAbsStr p then normpathComps true (pySplitAll '/' p)
  else normpathComps true (cwd ++ pySplitAll '/' p)

/-- Length of the common prefix of two component lists
(`genericpath.commonprefix`). -/
def commonPrefixLen : List Str → List Str → Nat
  | x :: xs, y :: ys => if x = y then commonPrefixLen xs ys + 1 else 0
  | _, _ => 0

/-- posixpath.relpath: raises `ValueError` on an empty path, otherwise
computes the relative path between the absolutized inputs. -/
def pyRelpath (cwd : List Str) (path start : Str) : Except Str Str :=
  if path = [] then .error ("no path specified".toList)
  else
    let start_list := (absPathComps cwd start).filter (fun x => x ≠ [])
    let path_list := (absPathComps cwd path).filter (fun x => x ≠ [])
    let i := commonPrefixLen start_list path_list
    let rel_list := List.replicate (start_list.length - i) ("..".toList) ++ path_list.drop i
    if rel_list = [] then .ok (".".toList)
    else .ok (List.intercalate ['/'] rel_list)

/-- Source `relposix`: POSIX relative path from `from_dir` to `to_path`
(`posixpath.relpath` with an explicit working directory, then backslash
normalization). -/
def relposix (cwd : List Str) (from_dir to_path : Str) : Except Str Str :=
  (pyRelpath cwd to_path (if from_dir = [] then ".".toList else from_dir)).map to_posix

/-- Python dicts: association lists where insertion prepends, so the most
recent binding shadows older ones. -/
abbrev Dict := List (Str × Str)

/-- Dictionary lookup, `d.get(k)`. -/
def dictGet : Dict → Str → Option Str
  | [], _ => none
  | (q, v) :: d, k => if q = k then some v else dictGet d k

/-- Dictionary update, `d[k] = v`. -/
def dictSet (d : Dict) (k v : Str) : Dict := (k, v) :: d

/-- Python `a or b` on an optional string and a fallback lookup: an empty
string is falsy, `None` is falsy. -/
def pyOrOpt (a b : Option Str) : Option Str :=
  match a with
  | some s => if s = [] then b else some s
  | none => b

/-- Python `a or b` on two strings (`a if a else b`). -/
def pyOrS (a b : Str) : Str := if a = [] then b else a

/-- File contents, as bytes. -/
abbrev Content := List Nat

/-- The output filesystem: association list from output paths to contents;
insertion prepends, lookup takes the most recent binding. -/
abbrev FS := List (Str × Content)

/-- Filesystem lookup. -/
def fsGet : FS → Str → Option Content
  | [], _ => none
  | (q, c) :: fs, p => if q = p then some c else fsGet fs p

/-- Filesystem write (create or overwrite). -/
def fsSet (fs : FS) (p : Str) (c : Content) : FS := (p, c) :: fs

/-- Path existence test, `Path.exists()`. -/
def fsExists (fs : FS) (p : Str) : Bool := (fsGet fs p).isSome

/-- Source `sha256_file`, modelled as the identity on contents: SHA-256 is
treated as injective, so hash comparison is content comparison. -/
def sha256_file (c : Content) : Content := c

/-- Source `copy_file_if_changed`: copy when the destination is missing;
otherwise compare sizes first and hashes only when the sizes match, and
copy (overwrite) only on a mismatch. Returns the new filesystem and
whether a copy was performed. -/
def copy_file_if_changed (srcContent : Content) (dst : Str) (fs : FS) : FS × Bool :=
  match fsGet fs dst with
  | none => (fsSet fs dst srcContent, true)
  | some old =>
    if srcContent.length = old.length then
      if sha256_file srcContent = sha256_file old then (fs, false)
      else (fsSet fs dst srcContent, true)
    else (fsSet fs dst srcContent, true)

/-- Candidate search of `unique_path_if_needed`: try
`{stem}__dup{i}{suffix}` for `i = 1, 2, ...` with the given amount of fuel
(the source bounds the loop at `range(1, 10_000)`, i.e. 9999 tries). -/
def findDupCandidate (fs : FS) (parent stem sfx : Str) : Nat → Nat → Option Str
  | 0, _ => none
  | fuel + 1, i =>
    let candidate := pyParentJoin parent
      (stem ++ "__dup".toList ++ (toString i).toList ++ sfx)
    if fsExists fs candidate then findDupCandidate fs parent stem sfx fuel (i + 1)
    else some candidate

/-- Source `unique_path_if_needed`: keep `dst` when it does not exist;
otherwise (regardless of content) pick the first free
`{stem}__dup{i}{suffix}` name, raising `RuntimeError` when all 9999
candidates are taken. -/
def unique_path_if_needed (fs : FS) (dst : Str) : Except Str Str :=
  if !fsExists fs dst then .ok dst
  else
    match findDupCandidate fs (pyParent dst) (pyStem (pyBasename dst))
        (pySuffix (pyBasename dst)) 9999 1 with
    | some candidate => .ok candidate
    | none => .error ("Too many filename collisions under: ".toList ++ pyParent dst)

/-- Python `set.add` modelled as append-if-new, preserving first-insertion
order (the iteration order is irrelevant here: all variants map to the
same value). -/
def setAdd (l : List Str) (x : Str) : List Str := if x ∈ l then l else l ++ [x]

/-- The twelve key variants registered for one media file: raw, decoded
and fully-unquoted forms, each slash- and colon-separated, each with and
without a leading colon, all query-stripped. -/
def mediaKeyVariants (rel_src_posix rel_decoded_posix : Str) : List Str :=
  [strip_query rel_src_posix,
   strip_query (':' :: rel_src_posix),
   strip_query (slashToColon rel_src_posix),
   strip_query (':' :: slashToColon rel_src_posix),
   strip_query rel_decoded_posix,
   strip_query (':' :: rel_decoded_posix),
   strip_query (slashToColon rel_decoded_posix),
   strip_query (':' :: slashToColon rel_decoded_posix),
   strip_query (pyUnquote rel_src_posix),
   strip_query (':' :: pyUnquote rel_src_posix),
   strip_query (slashToColon (pyUnquote rel_src_posix)),
   strip_query (':' :: slashToColon (pyUnquote rel_src_posix))].foldl setAdd []

/-- Loop body of `build_media_index_and_copy` over the remaining source
files with accumulated state `(index, filesystem, copies performed)`; the
source media files are given as (source-relative POSIX path, content)
pairs in `rglob` order, and the output media root is the path prefix
`media/`. -/
def buildMediaGo : List (Str × Content) → Dict × FS × Nat → Except Str (Dict × FS × Nat)
  | [], st => .ok st
  | (rel_src_posix, content) :: rest, (idx, fs, copies) =>
    let rel_decoded_posix := strip_query (decode_path_segments rel_src_posix)
    let out_rel_posix := rel_decoded_posix
    let dst := "media/".toList ++ out_rel_posix
    match unique_path_if_needed fs dst with
    | .error e => .error e
    | .ok dst_unique =>
      let copied := copy_file_if_changed content dst_unique fs
      let out_rel_posix_final := dst_unique.drop ("media/".toList).length
      let idx' := (mediaKeyVariants rel_src_posix rel_decoded_posix).foldl
        (fun d k => dictSet d k out_rel_posix_final) idx
      buildMediaGo rest (idx', copied.1, copies + (if copied.2 then 1 else 0))

/-- Source `build_media_index_and_copy`, including the count of actual
copies performed (calls to `shutil.copy2`). -/
def build_media_index_and_copy (files : List (Str × Content)) (fs : FS) :
    Except Str (Dict × FS × Nat) :=
  buildMediaGo files ([], fs, 0)

/-- Source `build_page_index`: for each source page (relative POSIX path
of a `.txt` file under the pages root, in `rglob` order), derive the
DokuWiki id and output path, and register the bare and colon-prefixed id. -/
def build_page_index (pages : List Str) : Dict :=
  pages.foldl (fun idx p =>
    let rel_posix := to_posix (pyDropSuffix p)
    let dokuwiki_id := slashToColon rel_posix
    let out_md_rel := rel_posix ++ ".md".toList
    dictSet (dictSet idx dokuwiki_id out_md_rel) (':' :: dokuwiki_id) out_md_rel) []

/-- Text output filesystem for converted notes. -/
abbrev FSt := List (Str × Str)

/-- Note-file lookup. -/
def fsGetT : FSt → Str → Option Str
  | [], _ => none
  | (q, c) :: fs, p => if q = p then some c else fsGetT fs p

/-- Note-file write. -/
def fsSetT (fs : FSt) (p : Str) (text : Str) : FSt := (p, text) :: fs

/-- Source `write_text_if_changed`: skip the write when the destination
already holds exactly the same text. Returns the new filesystem and
whether a write was performed. -/
def write_text_if_changed (fs : FSt) (dst : Str) (text : Str) : FSt × Bool :=
  match fsGetT fs dst with
  | some old => if old = text then (fs, false) else (fsSetT fs dst text, true)
  | none => (fsSetT fs dst text, true)

/-- Page-conversion loop of `migrate` (stage 3). Each source page is a
(relative POSIX path, read result) pair: reading a page can raise, and the
source has no handler around `src.read_text`, so an error propagates and
aborts the loop. The converter (which closes over the two indices) is a
parameter; the notes output root is the path prefix `notes/`. -/
def migratePages (conv : Str → Str → Str) :
    List (Str × Except Str Str) → FSt → Except Str FSt
  | [], fs => .ok fs
  | (p, raw?) :: rest, fs =>
    let rel_md := pyDropSuffix p ++ ".md".toList
    let dst := "notes/".toList ++ rel_md
    match raw? with
    | .error e => .error e
    | .ok raw => migratePages conv rest (write_text_if_changed fs dst (conv raw rel_md)).1

/-- First stage of `resolve_page_target`: strip, unquote and query-strip
the raw target, and remove the anchor fragment. -/
def rptCore (raw_target : Str) : Str :=
  let t := strip_query (pyUnquote (pyStrip raw_target))
  if '#' ∈ t then takeUntil '#' t else t

/-- Anchor fragment split off by `resolve_page_target` (with its `#`),
or empty. -/
def rptAnchor (raw_target : Str) : Str :=
  let t := strip_query (pyUnquote (pyStrip raw_target))
  if '#' ∈ t then '#' :: dropPast '#' t else []

/-- Identifier resolved by `resolve_page_target`: absolute targets and
targets containing `:` are used as-is (minus any leading colon); a bare
target gets the current page's namespace prepended; finally whitespace
runs are collapsed and stripped. -/
def resolvedIdOf (raw_target current_id : Str) : Str :=
  let t := rptCore raw_target
  let isAbs := t.head? = some ':'
  let t2 := if isAbs then t.tail else t
  let rid :=
    if ':' ∈ t2 ∨ isAbs then t2
    else
      let ns := if ':' ∈ current_id then beforeLastColon current_id else []
      if ns ≠ [] then ns ++ ':' :: t2 else t2
  pyStrip (collapseWs rid)

/-- Source `resolve_page_target`: resolve a DokuWiki page link target to
an output `.md` relative path, falling back to a path synthesized from
the identifier when both index lookups miss. -/
def resolve_page_target (raw_target current_id : Str) (page_index : Dict) : Str :=
  let t := rptCore raw_target
  if t = [] then []
  else
    let rid := resolvedIdOf raw_target current_id
    match pyOrOpt (dictGet page_index rid) (dictGet page_index (':' :: rid)) with
    | none => to_posix (colonToSlash rid ++ ".md".toList) ++ rptAnchor raw_target
    | some out_md => to_posix out_md ++ rptAnchor raw_target

/-- Source `normalize_media_target`: strip, unquote, query-strip, split
off the anchor, drop a leading colon, posix-normalize, turn colons into
slashes, decode each segment, query-strip again, re-append the anchor. -/
def normalize_media_target (raw_target : Str) : Str :=
  let t := strip_query (pyUnquote (pyStrip raw_target))
  let base := if '#' ∈ t then takeUntil '#' t else t
  let anchor := if '#' ∈ t then '#' :: dropPast '#' t else []
  let base2 := if base.head? = some ':' then base.tail else base
  strip_query (decode_path_segments (colonToSlash (to_posix base2))) ++ anchor

/-- Image extensions rendered as image embeds. -/
def IMAGE_EXTS : List Str :=
  [".png".toList, ".jpg".toList, ".jpeg".toList, ".gif".toList, ".bmp".toList,
   ".webp".toList, ".svg".toList]

/-- First media-index hit among a list of candidate keys. -/
def firstHit (media_index : Dict) : List Str → Option Str
  | [] => none
  | k :: ks =>
    match dictGet media_index k with
    | some v => some v
    | none => firstHit media_index ks

/-- Candidate key list tried by `repl_link`'s media branch, in source
order. -/
def replLinkKeys (t_norm media_target : Str) : List Str :=
  [strip_query t_norm,
   if t_norm.head? = some ':' then strip_query t_norm else strip_query (':' :: t_norm),
   strip_query media_target,
   if media_target.head? = some ':' then strip_query media_target
   else strip_query (':' :: media_target),
   strip_query (colonToSlash t_norm),
   if t_norm.head? = some ':' then strip_query (colonToSlash t_norm)
   else strip_query (':' :: colonToSlash t_norm),
   strip_query (slashToColon t_norm),
   if t_norm.head? = some ':' then strip_query (slashToColon t_norm)
   else strip_query (':' :: slashToColon t_norm)]

/-- Source `repl_link`, the `[[...]]` replacement closure of
`convert_dokuwiki_to_markdown`, with the enclosing context (current note
directory and id, the two indices) and the working directory passed
explicitly; `inner` is the regex capture between the brackets. A raised
`ValueError` from `posixpath.relpath` propagates as an error. -/
def repl_link (inner0 : Str) (cwd : List Str) (current_dir current_id : Str)
    (page_index media_index : Dict) : Except Str Str :=
  let inner := pyStrip inner0
  let target := if '|' ∈ inner then pyStrip (takeUntil '|' inner) else pyStrip inner
  let title := if '|' ∈ inner then pyStrip (dropPast '|' inner) else []
  if target = [] then .ok title
  else if isExternalUrl target then
    .ok ('[' :: pyOrS title target ++ "](".toList ++ target ++ [')'])
  else
    let t_norm := pyStrip (pyUnquote (strip_query target))
    let t_norm_base := if '#' ∈ t_norm then takeUntil '#' t_norm else t_norm
    let ext := pyLower (pySuffix (pyBasename t_norm_base))
    if ext ≠ [] ∧ ext ≠ ".md".toList then
      let media_target := normalize_media_target t_norm
      let out_media_rel :=
        match firstHit media_index (replLinkKeys t_norm media_target) with
        | some v => v
        | none => takeUntil '#' media_target
      let to_path := pyNormpath (pyJoin (pyJoin "..".toList "media".toList) out_media_rel)
      match relposix cwd current_dir to_path with
      | .error e => .error e
      | .ok rel =>
        if ext ∈ IMAGE_EXTS then
          if title = [] then .ok ("![](".toList ++ rel ++ [')'])
          else .ok ("![".toList ++ title ++ "](".toList ++ rel ++ [')'])
        else
          .ok ('[' :: pyOrS title (pyBasename out_media_rel) ++ "](".toList ++ rel ++ [')'])
    else
      let target_md_rel := resolve_page_target t_norm current_id page_index
      if target_md_rel = [] then .ok title
      else
        let no_anchor := if '#' ∈ target_md_rel then takeUntil '#' target_md_rel
          else target_md_rel
        let page_anchor := if '#' ∈ target_md_rel then '#' :: dropPast '#' target_md_rel
          else []
        match relposix cwd current_dir no_anchor with
        | .error e => .error e
        | .ok r =>
          let label0 := pyOrS title (pyBasename t_norm_base)
          let label := if title = [] ∧ ':' ∈ t_norm_base then afterLastColon t_norm_base
            else label0
          .ok ('[' :: label ++ "](".toList ++ r ++ page_anchor ++ [')'])

theorem not_mem_takeUntil (c : Char) (s : Str) : c ∉ takeUntil c s := by
  induction s with
  | nil => simp [takeUntil]
  | cons x xs ih =>
    by_cases h : x = c
    · simp [takeUntil, h]
    · simp only [takeUntil, if_neg h, List.mem_cons, not_or]
      exact ⟨fun hc => h hc.symm, ih⟩

theorem takeUntil_of_not_mem {c : Char} {s : Str} (h : c ∉ s) : takeUntil c s = s := by
  induction s with
  | nil => rfl
  | cons x xs ih =>
    simp only [List.mem_cons, not_or] at h
    have hx : ¬ x = c := fun he => h.1 he.symm
    simp only [takeUntil, if_neg hx]
    rw [ih h.2]

theorem mem_of_mem_takeUntil {a c : Char} {s : Str} (h : a ∈ takeUntil c s) : a ∈ s := by
  induction s with
  | nil => simp [takeUntil] at h
  | cons x xs ih =>
    simp only [takeUntil] at h
    by_cases hx : x = c
    · rw [if_pos hx] at h
      simp at h
    · rw [if_neg hx] at h
      rcases List.mem_cons.mp h with h1 | h2
      · exact h1 ▸ List.mem_cons_self _ _
      · exact List.mem_cons_of_mem _ (ih h2)

theorem takeUntil_append_cons {c : Char} {l : Str} (h : c ∉ l) (r : Str) :
    takeUntil c (l ++ c :: r) = l := by
  induction l with
  | nil => simp [takeUntil]
  | cons x xs ih =>
    simp only [List.mem_cons, not_or] at h
    have hx : ¬ x = c := fun he => h.1 he.symm
    simp only [List.cons_append, takeUntil, if_neg hx, List.append_eq]
    rw [ih h.2]

theorem dropPast_append_cons {c : Char} {l : Str} (h : c ∉ l) (r : Str) :
    dropPast c (l ++ c :: r) = r := by
  induction l with
  | nil => simp [dropPast]
  | cons x xs ih =>
    simp only [List.mem_cons, not_or] at h
    have hx : ¬ x = c := fun he => h.1 he.symm
    simp only [List.cons_append, dropPast, if_neg hx, List.append_eq]
    exact ih h.2

theorem takeUntil_append_dropPast {c : Char} {s : Str} (h : c ∈ s) :
    takeUntil c s ++ c :: dropPast c s = s := by
  induction s with
  | nil => simp at h
  | cons x xs ih =>
    by_cases hx : x = c
    · subst hx; simp [takeUntil, dropPast]
    · have hxs : c ∈ xs := by
        rcases List.mem_cons.mp h with h1 | h2
        · exact absurd h1.symm hx
        · exact h2
      simp only [takeUntil, dropPast, if_neg hx, List.cons_append, List.cons.injEq,
        true_and]
      exact ih hxs

theorem pySplitAll_ne_nil (c : Char) (s : Str) : pySplitAll c s ≠ [] := by
  cases s with
  | nil => simp [pySplitAll]
  | cons x xs =>
    by_cases hx : x = c
    · simp [pySplitAll, hx]
    · simp only [pySplitAll, if_neg hx]
      cases pySplitAll c xs with
      | nil => simp
      | cons a t => simp

theorem pySplitAll_append (c : Char) (xs ys : Str) :
    pySplitAll c (xs ++ c :: ys) = pySplitAll c xs ++ pySplitAll c ys := by
  induction xs with
  | nil => simp [pySplitAll]
  | cons x xs ih =>
    by_cases hx : x = c
    · simp [pySplitAll, hx, ih]
    · simp only [List.cons_append, pySplitAll, if_neg hx, List.append_eq]
      rw [ih]
      cases h : pySplitAll c xs with
      | nil => exact absurd h (pySplitAll_ne_nil c xs)
      | cons a t => simp

/-- C6: `strip_query` maps `"image.png?800"` to `"image.png"` and
`"x.pdf?download#p=2"` to `"x.pdf#p=2"`; it is the identity on every
string without a `?`; and applying it twice is a no-op. -/
theorem stripQuerySpec :
    strip_query ("image.png?800".toList) = "image.png".toList ∧
    strip_query ("x.pdf?download#p=2".toList) = "x.pdf#p=2".toList ∧
    (∀ s : Str, '?' ∉ s → strip_query s = s) ∧
    (∀ s : Str, strip_query (strip_query s) = strip_query s) := by
  refine ⟨by decide, by decide, ?_, ?_⟩
  · intro s h
    simp [strip_query, h]
  · intro s
    by_cases hq : '?' ∈ s
    · by_cases hh : '#' ∈ s
      · have hs1 : strip_query s =
            takeUntil '?' (takeUntil '#' s) ++ '#' :: dropPast '#' s := by
          simp [strip_query, hq, hh]
        rw [hs1]
        by_cases hq2 : '?' ∈ takeUntil '?' (takeUntil '#' s) ++ '#' :: dropPast '#' s
        · have hh2 : '#' ∈ takeUntil '?' (takeUntil '#' s) ++ '#' :: dropPast '#' s :=
            List.mem_append_right _ (List.mem_cons_self _ _)
          have hnbq : '#' ∉ takeUntil '?' (takeUntil '#' s) :=
            fun hmem => (not_mem_takeUntil '#' s) (mem_of_mem_takeUntil hmem)
          have hnq : '?' ∉ takeUntil '?' (takeUntil '#' s) := not_mem_takeUntil _ _
          simp only [strip_query, if_pos hq2, if_pos hh2]
          rw [takeUntil_append_cons hnbq, dropPast_append_cons hnbq,
            takeUntil_of_not_mem hnq]
        · simp [strip_query, hq2]
      · have hs1 : strip_query s = takeUntil '?' s := by
          simp [strip_query, hq, hh]
        rw [hs1]
        have hnq : '?' ∉ takeUntil '?' s := not_mem_takeUntil _ _
        simp [strip_query, hnq]
    · simp [strip_query, hq]

/-- Witness for C6: the no-question-mark case applied at `"abc"`. -/
theorem stripQuerySpec_witness : strip_query ("abc".toList) = "abc".toList :=
  stripQuerySpec.2.2.1 ("abc".toList) (by decide)

/-- C10: when the first `#` in `s` occurs before the first `?` (that is,
`s` contains both and no `?` occurs in the part before the first `#`),
`strip_query` returns `s` unchanged: a `?` inside the anchor fragment is
preserved, not treated as a query string. -/
theorem stripQueryAnchorBeforeQuery (s : Str) (hh : '#' ∈ s) (hq : '?' ∈ s)
    (hbefore : '?' ∉ takeUntil '#' s) : strip_query s = s := by
  simp only [strip_query, if_pos hq, if_pos hh]
  rw [takeUntil_of_not_mem hbefore]
  exact takeUntil_append_dropPast hh

/-- Witness for C10 at the concrete input `"a#b?c"`. -/
theorem stripQueryAnchorBeforeQuery_witness :
    strip_query ("a#b?c".toList) = "a#b?c".toList :=
  stripQueryAnchorBeforeQuery ("a#b?c".toList) (by decide) (by decide) (by decide)

/-- C9: `decode_path_segments` drops empty segments: a leading slash, a
trailing slash or a doubled slash does not change the result, and every
remaining segment is percent-decoded independently; in particular
`"/a//b/"` and `"a/b"` decode to the same string. -/
theorem decodeSegmentsDropsEmpty :
    (∀ s : Str, decode_path_segments ('/' :: s) = decode_path_segments s) ∧
    (∀ s : Str, decode_path_segments (s ++ ['/']) = decode_path_segments s) ∧
    (∀ s t : Str, decode_path_segments (s ++ '/' :: '/' :: t) =
      decode_path_segments (s ++ '/' :: t)) ∧
    decode_path_segments ("/a//b/".toList) = decode_path_segments ("a/b".toList) := by
  have happ : ∀ s t : Str, to_posix (s ++ '/' :: t) = to_posix s ++ '/' :: to_posix t := by
    intro s t
    simp only [to_posix, List.map_append, List.map_cons]
    rfl
  have hsp : ∀ s : Str,
      pySplitAll '/' (to_posix ('/' :: s)) = [] :: pySplitAll '/' (to_posix s) := by
    intro s
    have : to_posix ('/' :: s) = '/' :: to_posix s := by
      simpa using happ [] s
    rw [this]
    simp [pySplitAll]
  refine ⟨?_, ?_, ?_, by decide⟩
  · intro s
    simp only [decode_path_segments, hsp]
    simp
  · intro s
    have h1 : pySplitAll '/' (to_posix (s ++ ['/'])) =
        pySplitAll '/' (to_posix s) ++ [[]] := by
      have : (['/'] : Str) = '/' :: ([] : Str) := rfl
      rw [this, happ, pySplitAll_append]
      simp [to_posix, pySplitAll]
    simp only [decode_path_segments, h1]
    simp
  · intro s t
    have h1 : pySplitAll '/' (to_posix (s ++ '/' :: '/' :: t)) =
        pySplitAll '/' (to_posix s) ++ [] :: pySplitAll '/' (to_posix t) := by
      rw [happ, pySplitAll_append]
      congr 1
    have h2 : pySplitAll '/' (to_posix (s ++ '/' :: t)) =
        pySplitAll '/' (to_posix s) ++ pySplitAll '/' (to_posix t) := by
      rw [happ, pySplitAll_append]
    simp only [decode_path_segments, h1, h2]
    simp

theorem normStep_plain (absolute : Bool) (acc : List Str) (x : Str)
    (h1 : x ≠ []) (h2 : x ≠ ".".toList) (h3 : x ≠ "..".toList) :
    normStep absolute acc x = acc ++ [x] := by
  unfold normStep
  rw [if_neg (fun hor => hor.elim h1 h2), if_pos (Or.inl h3)]

theorem foldl_normStep_plain (absolute : Bool) (ys : List Str)
    (h : ∀ y ∈ ys, y ≠ [] ∧ y ≠ ".".toList ∧ y ≠ "..".toList) :
    ∀ acc, List.foldl (normStep absolute) acc ys = acc ++ ys := by
  induction ys with
  | nil => intro acc; simp
  | cons y ys ih =>
    intro acc
    have hy := h y (List.mem_cons_self _ _)
    rw [List.foldl_cons, normStep_plain _ _ _ hy.1 hy.2.1 hy.2.2,
      ih (fun z hz => h z (List.mem_cons_of_mem _ hz)), List.append_assoc]
    rfl

theorem mem_normStep_ne_nil (absolute : Bool) (acc : List Str) (c : Str)
    (hacc : ∀ x ∈ acc, x ≠ []) : ∀ x ∈ normStep absolute acc c, x ≠ [] := by
  intro x hx
  unfold normStep at hx
  split at hx
  · exact hacc x hx
  · next hc =>
    split at hx
    · rcases List.mem_append.mp hx with h1 | h1
      · exact hacc x h1
      · have : x = c := by simpa using h1
        subst this
        intro hnil
        exact hc (Or.inl hnil)
    · split at hx
      · exact hacc x ((List.dropLast_sublist acc).subset hx)
      · exact hacc x hx

theorem normpathComps_mem_ne_nil (absolute : Bool) (l : List Str) :
    ∀ x ∈ normpathComps absolute l, x ≠ [] := by
  suffices hgen : ∀ (l acc : List Str), (∀ x ∈ acc, x ≠ []) →
      ∀ x ∈ List.foldl (normStep absolute) acc l, x ≠ [] by
    exact hgen l [] (by simp)
  intro l
  induction l with
  | nil =>
    intro acc hacc
    simpa using hacc
  | cons c cs ih =>
    intro acc hacc
    rw [List.foldl_cons]
    exact ih _ (mem_normStep_ne_nil absolute acc c hacc)

theorem commonPrefixLen_append (A u v : List Str) :
    commonPrefixLen (A ++ u) (A ++ v) = A.length + commonPrefixLen u v := by
  induction A with
  | nil => simp
  | cons x A ih =>
    simp only [List.cons_append, commonPrefixLen, List.append_eq, eq_self_iff_true,
      if_true, ih, List.length_cons]
    omega

theorem filter_normpathComps_id (absolute : Bool) (l : List Str) :
    (normpathComps absolute l).filter (fun x => x ≠ []) = normpathComps absolute l :=
  List.filter_eq_self.mpr (fun a ha => by
    simpa using normpathComps_mem_ne_nil absolute l a ha)

theorem relposix_notes_ab (cwd : List Str) :
    relposix cwd ("a/b".toList) ("a/b/c.md".toList) = Except.ok ("c.md".toList) := by
  have habs1 : absPathComps cwd ("a/b".toList) =
      normpathComps true cwd ++ ["a".toList, "b".toList] := by
    unfold absPathComps
    rw [if_neg (by decide)]
    have hs1 : pySplitAll '/' ("a/b".toList) = ["a".toList, "b".toList] := by decide
    rw [hs1]
    unfold normpathComps
    rw [List.foldl_append]
    exact foldl_normStep_plain true _ (by decide) _
  have habs2 : absPathComps cwd ("a/b/c.md".toList) =
      normpathComps true cwd ++ ["a".toList, "b".toList, "c.md".toList] := by
    unfold absPathComps
    rw [if_neg (by decide)]
    have hs2 : pySplitAll '/' ("a/b/c.md".toList) =
        ["a".toList, "b".toList, "c.md".toList] := by decide
    rw [hs2]
    unfold normpathComps
    rw [List.foldl_append]
    exact foldl_normStep_plain true _ (by decide) _
  unfold relposix
  rw [if_neg (by decide : ¬("a/b".toList : Str) = [])]
  unfold pyRelpath
  rw [if_neg (by decide : ¬("a/b/c.md".toList : Str) = [])]
  simp only [habs1, habs2, List.filter_append, filter_normpathComps_id]
  have hf1 : (["a".toList, "b".toList] : List Str).filter (fun x => x ≠ []) =
      ["a".toList, "b".toList] := by decide
  have hf2 : (["a".toList, "b".toList, "c.md".toList] : List Str).filter
      (fun x => x ≠ []) = ["a".toList, "b".toList, "c.md".toList] := by decide
  rw [hf1, hf2, commonPrefixLen_append]
  have hcpl : commonPrefixLen ["a".toList, "b".toList]
      ["a".toList, "b".toList, "c.md".toList] = 2 := by decide
  rw [hcpl]
  set N := normpathComps true cwd with hN
  have hlen : (N ++ ["a".toList, "b".toList]).length = N.length + 2 := by
    simp
  rw [hlen, Nat.sub_self, List.replicate_zero, List.nil_append]
  have hdrop : (N ++ ["a".toList, "b".toList, "c.md".toList]).drop (N.length + 2) =
      ["c.md".toList] := by
    have hassoc : N ++ ["a".toList, "b".toList, "c.md".toList] =
        (N ++ ["a".toList, "b".toList]) ++ ["c.md".toList] := by
      simp
    rw [hassoc, ← hlen, List.drop_left]
  rw [hdrop]
  rw [if_neg (by decide : ¬(["c.md".toList] : List Str) = [])]
  rfl

/-- C7: a page at identifier `a:b:page` containing `[[c]]` resolves `c`
to identifier `a:b:c` (the page's own namespace prepended); with the
page index mapping `a:b:c` to `a/b/c.md`, `resolve_page_target` returns
`a/b/c.md`, the emitted relative path from `notes/a/b/page.md` to
`notes/a/b/c.md` is `c.md`, and `repl_link` renders `[c](c.md)` — for
every media index and every working directory. -/
theorem relativePageLinkResolution (idx midx : Dict) (cwd : List Str)
    (h : dictGet idx ("a:b:c".toList) = some ("a/b/c.md".toList)) :
    resolvedIdOf ("c".toList) ("a:b:page".toList) = "a:b:c".toList ∧
    resolve_page_target ("c".toList) ("a:b:page".toList) idx = "a/b/c.md".toList ∧
    relposix cwd ("a/b".toList) ("a/b/c.md".toList) = Except.ok ("c.md".toList) ∧
    repl_link ("c".toList) cwd ("a/b".toList) ("a:b:page".toList) idx midx =
      Except.ok ("[c](c.md)".toList) := by
  have hrid : resolvedIdOf ("c".toList) ("a:b:page".toList) = "a:b:c".toList := by decide
  have hres : resolve_page_target ("c".toList) ("a:b:page".toList) idx =
      "a/b/c.md".toList := by
    have hb : resolve_page_target ("c".toList) ("a:b:page".toList) idx =
        (match pyOrOpt (dictGet idx ("a:b:c".toList))
            (dictGet idx (':' :: "a:b:c".toList)) with
         | none => to_posix (colonToSlash ("a:b:c".toList) ++ ".md".toList) ++
             rptAnchor ("c".toList)
         | some out_md => to_posix out_md ++ rptAnchor ("c".toList)) := rfl
    rw [hb, h]
    have hne : ¬("a/b/c.md".toList : Str) = [] := by decide
    simp only [pyOrOpt, if_neg hne]
    decide
  refine ⟨hrid, hres, relposix_notes_ab cwd, ?_⟩
  have hbridge : repl_link ("c".toList) cwd ("a/b".toList) ("a:b:page".toList) idx midx =
      (if resolve_page_target ("c".toList) ("a:b:page".toList) idx = [] then Except.ok []
       else
         match relposix cwd ("a/b".toList)
             (if '#' ∈ resolve_page_target ("c".toList) ("a:b:page".toList) idx then
               takeUntil '#' (resolve_page_target ("c".toList) ("a:b:page".toList) idx)
             else resolve_page_target ("c".toList) ("a:b:page".toList) idx) with
         | .error e => .error e
         | .ok r =>
           Except.ok ('[' :: "c".toList ++ "](".toList ++ r ++
             (if '#' ∈ resolve_page_target ("c".toList) ("a:b:page".toList) idx then
               '#' :: dropPast '#' (resolve_page_target ("c".toList) ("a:b:page".toList) idx)
             else []) ++ [')'])) := rfl
  rw [hbridge, hres]
  have hne : ¬("a/b/c.md".toList : Str) = [] := by decide
  have hnh : ¬('#' ∈ ("a/b/c.md".toList : Str)) := by decide
  simp only [if_neg hne, if_neg hnh]
  rw [relposix_notes_ab cwd]
  rfl

/-- Witness for C7: the page index built from the source pages
`a/b/page.txt` and `a/b/c.txt`, an empty media index, and the root
working directory. -/
theorem relativePageLinkResolution_witness :
    resolvedIdOf ("c".toList) ("a:b:page".toList) = "a:b:c".toList ∧
    resolve_page_target ("c".toList) ("a:b:page".toList)
      (build_page_index ["a/b/page.txt".toList, "a/b/c.txt".toList]) =
      "a/b/c.md".toList ∧
    relposix [] ("a/b".toList) ("a/b/c.md".toList) = Except.ok ("c.md".toList) ∧
    repl_link ("c".toList) [] ("a/b".toList) ("a:b:page".toList)
      (build_page_index ["a/b/page.txt".toList, "a/b/c.txt".toList]) [] =
      Except.ok ("[c](c.md)".toList) :=
  relativePageLinkResolution
    (build_page_index ["a/b/page.txt".toList, "a/b/c.txt".toList]) [] []
    (by decide)

/-- C8: for every page-link target whose resolved identifier misses the
page index in both its bare and colon-prefixed form, resolution does not
raise and does not drop the link: it returns the path synthesized from
the identifier by converting colons to slashes and appending `.md`, with
the anchor re-appended. -/
theorem danglingLinkSynthesized (raw current : Str) (idx : Dict)
    (h1 : rptCore raw ≠ [])
    (h2 : dictGet idx (resolvedIdOf raw current) = none)
    (h3 : dictGet idx (':' :: resolvedIdOf raw current) = none) :
    resolve_page_target raw current idx =
      to_posix (colonToSlash (resolvedIdOf raw current) ++ ".md".toList) ++
        rptAnchor raw := by
  unfold resolve_page_target
  rw [if_neg h1]
  simp only [h2, h3, pyOrOpt]

/-- Witness for C8 at the concrete target `zzz` on page `a:b:p` with an
empty page index. -/
theorem danglingLinkSynthesized_witness :
    resolve_page_target ("zzz".toList) ("a:b:p".toList) [] =
      to_posix (colonToSlash (resolvedIdOf ("zzz".toList) ("a:b:p".toList)) ++
        ".md".toList) ++ rptAnchor ("zzz".toList) :=
  danglingLinkSynthesized ("zzz".toList) ("a:b:p".toList) [] (by decide) rfl rfl

/-- C2 fails on the code: `unique_path_if_needed` tests only existence,
never content, so with the destination `media/x.png` already holding
exactly the source bytes it still renames to `media/x__dup1.png` instead
of keeping the candidate path (contradicting its own docstring). -/
theorem uniquePathRenamesIdenticalFile :
    unique_path_if_needed [("media/x.png".toList, [1])] ("media/x.png".toList) =
      Except.ok ("media/x__dup1.png".toList) := by
  rfl

/-- C1 fails on the code: a first media run from an empty output tree
copies `x.png` to `media/x.png` (one copy); a second run against the
unchanged source and the outputs of the first run performs another copy,
creating `media/x__dup1.png`, so the second run is not a no-op and the
outputs are not byte-identical to the first run's. -/
theorem secondMediaRunDuplicates :
    (build_media_index_and_copy [("x.png".toList, [1])] []).map (fun r => r.2) =
      Except.ok ([("media/x.png".toList, [1])], 1) ∧
    (build_media_index_and_copy [("x.png".toList, [1])]
        [("media/x.png".toList, [1])]).map
      (fun r => (fsGet r.2.1 ("media/x__dup1.png".toList), r.2.2)) =
      Except.ok (some [1], 1) := by
  exact ⟨rfl, rfl⟩

/-- C3 fails on the code: the sources `%41.png` and `A.png`, both with
content `[7]`, decode to the same output name, yet the synchronizer
registers and copies them to two distinct output files `media/A.png` and
`media/A__dup1.png` with identical content (two copies performed), so an
identical-content pair is duplicated rather than assigned one path. -/
theorem identicalContentPairDuplicated :
    (build_media_index_and_copy [("%41.png".toList, [7]), ("A.png".toList, [7])] []).map
      (fun r => (fsGet r.2.1 ("media/A.png".toList),
        fsGet r.2.1 ("media/A__dup1.png".toList), r.2.2)) =
      Except.ok (some [7], some [7], 2) := by
  rfl

/-- C4 as stated fails on the code: with the first page unreadable and a
second readable page behind it, `migrate`'s page loop propagates the
read error and stops; the second page is never converted and no output
is produced. -/
theorem unreadablePageAbortsRun_cex :
    migratePages (fun raw _ => raw)
      [("a.txt".toList, Except.error ("unreadable".toList)),
       ("b.txt".toList, Except.ok ("hi".toList))] [] =
      Except.error ("unreadable".toList) := by
  rfl

/-- C4 amended: for every converter, every unreadable page and every
state, the page loop aborts at the unreadable file with its error — no
warning is surfaced and the remaining files are not processed. -/
theorem unreadablePageAborts (conv : Str → Str → Str) (p e : Str)
    (rest : List (Str × Except Str Str)) (fs : FSt) :
    migratePages conv ((p, Except.error e) :: rest) fs = Except.error e := by
  rfl

/-- C5 as stated fails on the code: `relposix` raises `ValueError`
(`posixpath.relpath`'s "no path specified") on an empty target path. -/
theorem relposixEmptyTargetErrors :
    relposix [] ("a".toList) ([] : Str) = Except.error ("no path specified".toList) := by
  rfl

/-- C5 amended: `to_posix`, `decode_path_segments` and `strip_query` are
total functions of their string argument (their embeddings are plain
functions); `relposix` never raises whenever the target path is
non-empty; and malformed percent-encoding degrades to literal decoding
(`%zz.png` decodes to itself). -/
theorem normalizationTotalExceptEmptyTarget :
    (∀ (cwd : List Str) (from_dir to_path : Str), to_path ≠ [] →
      ∃ r, relposix cwd from_dir to_path = Except.ok r) ∧
    pyUnquote ("%zz.png".toList) = "%zz.png".toList ∧
    decode_path_segments ("a%zz/b%".toList) = "a%zz/b%".toList := by
  have hite : ∀ (c : Prop) (inst : Decidable c) (a b : Str),
      ∃ x, (if c then Except.ok a else Except.ok b : Except Str Str) = Except.ok x := by
    intro c inst a b
    by_cases hc : c
    · exact ⟨a, if_pos hc⟩
    · exact ⟨b, if_neg hc⟩
  refine ⟨?_, by decide, by decide⟩
  intro cwd from_dir to_path h
  have hok : ∃ x, pyRelpath cwd to_path (if from_dir = [] then ".".toList else from_dir) =
      Except.ok x := by
    unfold pyRelpath
    rw [if_neg h]
    dsimp only
    exact hite _ _ _ _
  obtain ⟨x, hx⟩ := hok
  exact ⟨to_posix x, by unfold relposix; rw [hx]; rfl⟩

/-- Witness for C5's amended theorem at a concrete non-empty target. -/
theorem normalizationTotal_witness :
    ∃ r, relposix [] ("a".toList) ("b".toList) = Except.ok r :=
  normalizationTotalExceptEmptyTarget.1 [] ("a".toList) ("b".toList) (by decide)
